import Mathlib

/-!
Verification development for the forestry repository (a tool that assigns
files under a project directory to external formatter programs based on glob
patterns, then invokes each formatter once with the files it claimed).

The Rust sources are shallowly embedded as executable Lean definitions:

* src/config.rs   : the Config and Formatter deserialization targets and the
                    config-file discovery functions.
* src/runner.rs   : the Runner value, glob-set compilation, command
                    construction, and process-outcome inspection.
* src/project.rs  : Project loading, the classifier that partitions the file
                    stream among the runners, and the dispatch loop.
* src/main.rs     : the exit-code mapping of the top-level run.

External collaborators (the globset crate, the TOML parser, the directory
walker, and process spawning) are modelled at their interface boundary: the
walker becomes an input list of candidate files, process execution becomes an
oracle from commands to spawn results, and the glob compiler becomes a small
pattern parser with the same error behavior (invalid patterns are rejected)
and the same matching shape (a set of compiled patterns matches a path when
any single pattern does).
-/

deriving instance DecidableEq for Except

namespace Forestry

/-! ## Glob model (interface of the globset crate as used by runner.rs) -/

/-- Token of a compiled glob pattern: a literal character, a single-character
wildcard, a character class, or a star matching any character sequence. -/
inductive GTok where
  | lit (c : Char)
  | anyChar
  | charClass (cs : List Char)
  | star
  deriving DecidableEq, Repr

/-- Errors of glob compilation (globset rejects syntactically invalid
patterns, e.g. an unclosed character class or a dangling escape). -/
inductive GlobError where
  | unclosedClass
  | danglingEscape
  deriving DecidableEq, Repr

/-- Parser state while scanning a pattern string. -/
inductive PMode where
  | normal
  | esc
  | inClass (acc : List Char)
  deriving DecidableEq, Repr

/-- Scan a pattern character list into tokens.  Models globset pattern
compilation at the interface boundary: star and double star both compile to a
token matching any sequence (globset's default, which does not treat the
separator as literal), a backslash escapes the next character, and a square
bracket opens a character class running to the closing bracket.  An unclosed
class or a dangling escape is a compilation error.  Brace alternates and
character ranges are not modelled; no claim depends on them. -/
def parseGlobAux : PMode → List GTok → List Char → Except GlobError (List GTok)
  | .normal, acc, [] => .ok acc.reverse
  | .normal, acc, c :: rest =>
    if c = '*' then parseGlobAux .normal (.star :: acc) rest
    else if c = '?' then parseGlobAux .normal (.anyChar :: acc) rest
    else if c = '[' then parseGlobAux (.inClass []) acc rest
    else if c = '\\' then parseGlobAux .esc acc rest
    else parseGlobAux .normal (.lit c :: acc) rest
  | .esc, _, [] => .error .danglingEscape
  | .esc, acc, c :: rest => parseGlobAux .normal (.lit c :: acc) rest
  | .inClass _, _, [] => .error .unclosedClass
  | .inClass cls, acc, c :: rest =>
    if c = ']' then parseGlobAux .normal (.charClass cls.reverse :: acc) rest
    else parseGlobAux (.inClass (c :: cls)) acc rest

/-- A compiled glob pattern. -/
abbrev Glob := List GTok

namespace Glob

/-- Model of globset Glob construction: compile one textual pattern,
failing on a syntactically invalid pattern. -/
def new (pattern : String) : Except GlobError Glob :=
  parseGlobAux .normal [] pattern.toList

end Glob

/-- Match a token list against a character list.  A star token matches any
sequence of characters (it tries every suffix of the remaining input). -/
def matchToks : List GTok → List Char → Bool
  | [], s => s.isEmpty
  | .lit _ :: _, [] => false
  | .lit c :: ts, c2 :: s => c = c2 && matchToks ts s
  | .anyChar :: _, [] => false
  | .anyChar :: ts, _ :: s => matchToks ts s
  | .charClass _ :: _, [] => false
  | .charClass cs :: ts, c :: s => cs.contains c && matchToks ts s
  | .star :: ts, s => s.tails.any fun s2 => matchToks ts s2

/-- A compiled pattern set (model of globset GlobSet): the list of compiled
patterns added by the builder. -/
abbrev GlobSet := List Glob

namespace GlobSet

/-- A pattern set matches a path when any of its compiled patterns does
(model of GlobSet matching as used through is_match_candidate). -/
def isMatch (gs : GlobSet) (rel : String) : Bool :=
  gs.any fun g => matchToks g rel.toList

end GlobSet

/-! ## Result collection (Rust collect over Result, used by project.rs and
build_glob_set in runner.rs: stop at the first error) -/

/-- Apply a fallible function to every list element, stopping at the first
error (the behavior of collecting an iterator of Results into a Result). -/
def mapExcept (f : α → Except ε β) : List α → Except ε (List β)
  | [] => .ok []
  | x :: xs =>
    match f x with
    | .error e => .error e
    | .ok b =>
      match mapExcept f xs with
      | .error e => .error e
      | .ok bs => .ok (b :: bs)

/-! ## Configuration model (src/config.rs) -/

/-- TOML values occurring in the formatter schema. -/
inductive TomlVal where
  | vStr (s : String)
  | vBool (b : Bool)
  | vStrArr (xs : List String)
  | vStrTable (kvs : List (String × String))
  deriving DecidableEq, Repr

/-- Deserialization errors of the derived Formatter decoder. -/
inductive DecodeError where
  | unknownField (key : String)
  | duplicateField (key : String)
  | typeMismatch (key : String)
  | missingField (key : String)
  deriving DecidableEq, Repr

/-- The Formatter struct of src/config.rs: program and patterns are required,
args and env default to empty.  There is no shell field. -/
structure Formatter where
  program : String
  args : List String
  env : List (String × String)
  patterns : List String
  deriving DecidableEq, Repr

/-- Accumulator for the field-by-field decode of a formatter table. -/
structure FormatterFields where
  program : Option String
  args : Option (List String)
  env : Option (List (String × String))
  patterns : Option (List String)
  deriving DecidableEq, Repr

/-- Process the entries of a formatter TOML table, mirroring the derived
serde deserializer with deny_unknown_fields: a key outside the declared
fields is an error, a repeated key is an error, and each value must have the
declared type. -/
def decodeFormatterFields : FormatterFields → List (String × TomlVal) →
    Except DecodeError FormatterFields
  | st, [] => .ok st
  | st, (key, v) :: rest =>
    if key = "program" then
      match st.program, v with
      | some _, _ => .error (.duplicateField key)
      | none, .vStr s => decodeFormatterFields { st with program := some s } rest
      | none, _ => .error (.typeMismatch key)
    else if key = "args" then
      match st.args, v with
      | some _, _ => .error (.duplicateField key)
      | none, .vStrArr xs => decodeFormatterFields { st with args := some xs } rest
      | none, _ => .error (.typeMismatch key)
    else if key = "env" then
      match st.env, v with
      | some _, _ => .error (.duplicateField key)
      | none, .vStrTable kvs => decodeFormatterFields { st with env := some kvs } rest
      | none, _ => .error (.typeMismatch key)
    else if key = "patterns" then
      match st.patterns, v with
      | some _, _ => .error (.duplicateField key)
      | none, .vStrArr xs => decodeFormatterFields { st with patterns := some xs } rest
      | none, _ => .error (.typeMismatch key)
    else
      .error (.unknownField key)

/-- Decode one formatter table into the Formatter struct of src/config.rs:
unknown keys are rejected, program and patterns are required, args and env
default to the empty list and empty map. -/
def decodeFormatterTable (entries : List (String × TomlVal)) :
    Except DecodeError Formatter :=
  match decodeFormatterFields ⟨none, none, none, none⟩ entries with
  | .error e => .error e
  | .ok st =>
    match st.program with
    | none => .error (.missingField "program")
    | some program =>
      match st.patterns with
      | none => .error (.missingField "patterns")
      | some patterns =>
        .ok { program, args := st.args.getD [], env := st.env.getD [],
              patterns }

/-- Modelled from the spec: the FormatterConfig struct consumed by
Runner::from_formatter in src/runner.rs is not present under src (src/config.rs
holds an older Formatter struct without a shell field).  Per the configuration
schema of the spec, a formatter carries a required program, an optional shell
flag defaulting to false, optional args and env, and a patterns list. -/
structure FormatterConfig where
  program : String
  shell : Bool
  args : List String
  env : List (String × String)
  patterns : List String
  deriving DecidableEq, Repr

/-- Errors of config-file loading (src/config.rs LoadError). -/
inductive ConfigLoadError where
  | readFile
  | parseToml
  deriving DecidableEq, Repr

namespace Config

/-- The possible config file names, ordered by priority (src/config.rs). -/
def FILE_NAMES : List String := [".forestry.toml", "forestry.toml"]

end Config

/-! ## File-system model for config discovery.

A directory is a list of path segments (the empty list is the file-system
root), and the file system is the list of paths that exist as regular files. -/

/-- A file-system snapshot: the list of segment paths that are files. -/
abbrev FileSys := List (List String)

namespace Config

/-- Returns the path to a config file in the given directory, or none if the
directory does not contain such a config file (src/config.rs check_dir):
the first existing name of FILE_NAMES wins. -/
def check_dir (fs : FileSys) (dir : List String) : Option (List String) :=
  FILE_NAMES.findSome? fun fileName =>
    if (dir ++ [fileName]) ∈ fs then some (dir ++ [fileName]) else none

/-- Finds the config file in the given directory or any of its parent
directories, recursively; returns the directory and config file paths or
none if not found (src/config.rs find).  The parent of the root is none. -/
def find (fs : FileSys) (dir : List String) :
    Option (List String × List String) :=
  match check_dir fs dir with
  | some f => some (dir, f)
  | none =>
    if h : dir = [] then none
    else Config.find fs dir.dropLast
termination_by dir.length
decreasing_by
  simp [List.length_dropLast]
  exact List.length_pos.mpr h

end Config

/-- The chain of directories inspected by an upward search: the directory
itself followed by each of its parents up to the root. -/
def ancestors (dir : List String) : List (List String) :=
  if h : dir = [] then [[]]
  else dir :: ancestors dir.dropLast
termination_by dir.length
decreasing_by
  simp [List.length_dropLast]
  exact List.length_pos.mpr h

/-! ## Runner model (src/runner.rs) -/

/-- A runner: one formatter with its compiled pattern set (src/runner.rs). -/
structure Runner where
  name : String
  glob_set : GlobSet
  program : String
  shell : Bool
  args : List String
  env : List (String × String)
  deriving DecidableEq, Repr

/-- Runner execution errors (src/runner.rs Error): the process failed to
start (carrying the spawn error), or it exited unsuccessfully. -/
inductive RunnerError where
  | execFailed (e : String)
  | programFailed
  deriving DecidableEq, Repr

namespace Runner

/-- Compile a pattern list into a glob set, stopping at the first invalid
pattern (src/runner.rs build_glob_set). -/
def build_glob_set (patterns : List String) : Except GlobError GlobSet :=
  mapExcept Glob.new patterns

/-- Create a new runner by consuming a formatter
(src/runner.rs from_formatter): compiling the pattern set can fail. -/
def from_formatter (name : String) (fmt : FormatterConfig) :
    Except GlobError Runner :=
  match build_glob_set fmt.patterns with
  | .error e => .error e
  | .ok gs =>
    .ok { name, glob_set := gs, program := fmt.program, shell := fmt.shell,
          args := fmt.args, env := fmt.env }

end Runner

/-- A process invocation as assembled by Runner::run: the executable, its
argument vector, the working directory, and the environment overrides. -/
structure Command where
  program : String
  args : List String
  cwd : String
  env : List (String × String)
  deriving DecidableEq, Repr

namespace Runner

/-- Build the command executed by Runner::run (unix model): with the shell
flag the executable is sh with a -c flag and the program string, otherwise
the program itself; then the working directory, the environment overrides,
the preset args, and the claimed file paths are appended. -/
def buildCommand (r : Runner) (workingDir : String) (paths : List String) :
    Command :=
  if r.shell then
    { program := "sh", args := ["-c", r.program] ++ r.args ++ paths,
      cwd := workingDir, env := r.env }
  else
    { program := r.program, args := r.args ++ paths,
      cwd := workingDir, env := r.env }

/-- Execute the runner once in a working directory for a list of paths
(src/runner.rs run).  Process spawning is an oracle from the built command to
either a spawn error or the exit status of the terminated child; a spawn
error becomes execFailed with the cause, a non-zero exit status becomes
programFailed, and a zero exit status is success. -/
def run (r : Runner) (workingDir : String) (paths : List String)
    (spawn : Command → Except String Int) : Except RunnerError Unit :=
  match spawn (r.buildCommand workingDir paths) with
  | .error e => .error (.execFailed e)
  | .ok status => if status = 0 then .ok () else .error .programFailed

end Runner

/-! ## Project model (src/project.rs) -/

/-- A candidate file produced by the directory walker: its absolute path and
its path relative to the project root. -/
structure Candidate where
  abs : String
  rel : String
  deriving DecidableEq, Repr

/-- Classifier diagnostics (the warn log lines of match_runners): a file
matched by no runner, or a file matched by more than one runner, of which
only the first receives it. -/
inductive Warning where
  | unmatched (rel : String)
  | conflict (rel : String)
  deriving DecidableEq, Repr

/-- Project loading errors (src/project.rs LoadError). -/
inductive LoadError where
  | noConfigFile
  | configFileLoad (e : ConfigLoadError)
  | invalidGlob (e : GlobError)
  | cwdNotAccessible
  deriving DecidableEq, Repr

/-- A loaded project: the root directory and the runners built from the
configured formatters. -/
structure Project where
  rootDir : String
  runners : List Runner
  deriving DecidableEq, Repr

/-- Lexicographic comparison of character lists by unicode scalar value:
the order of Rust Ord for String (byte-wise lexicographic), which governs
BTreeMap iteration. -/
def charListLeb : List Char → List Char → Bool
  | [], _ => true
  | _ :: _, [] => false
  | c :: cs, d :: ds =>
    if c.toNat < d.toNat then true
    else if d.toNat < c.toNat then false
    else charListLeb cs ds

/-- Whether one string sorts at or before another in the BTreeMap key
order. -/
def strLeb (a b : String) : Bool := charListLeb a.toList b.toList

/-- Insert one named formatter into a name-ordered list. -/
def insertByName (x : String × FormatterConfig) :
    List (String × FormatterConfig) → List (String × FormatterConfig)
  | [] => [x]
  | y :: ys => if strLeb x.1 y.1 then x :: y :: ys else y :: insertByName x ys

/-- Sort named formatters into ascending name order.  Models the iteration
order of the BTreeMap holding Config::formatters in src/config.rs: however
the formatters were declared in the file, the map iterates them in ascending
key order. -/
def sortByName : List (String × FormatterConfig) →
    List (String × FormatterConfig)
  | [] => []
  | x :: xs => insertByName x (sortByName xs)

namespace Project

/-- Build the runners of a project from the parsed configuration
(src/project.rs load, after Config::load succeeded): iterate the formatter
map in its BTreeMap order and build a runner for each formatter, failing on
the first invalid glob pattern.  The input list carries the formatters in
declaration order; sortByName models the map's iteration order. -/
def load (rootDir : String) (formatters : List (String × FormatterConfig)) :
    Except LoadError Project :=
  match mapExcept (fun nf => Runner.from_formatter nf.1 nf.2)
      (sortByName formatters) with
  | .error e => .error (.invalidGlob e)
  | .ok rs => .ok { rootDir, runners := rs }

/-- Resolve the root directory and config file (src/project.rs find_config):
an explicitly given root directory is only checked itself, otherwise the
search starts at the current working directory and walks upwards. -/
def find_config (fs : FileSys) (rootDirArg : Option (List String))
    (cwd : List String) : Except LoadError (List String × List String) :=
  match
    (match rootDirArg with
     | some rootDir => (Config.check_dir fs rootDir).map fun f => (rootDir, f)
     | none => Config.find fs cwd) with
  | some x => .ok x
  | none => .error .noConfigFile

end Project

/-! ## Classifier (src/project.rs match_runners) -/

/-- Whether any runner of the list matches the relative path. -/
def anyMatch (rs : List Runner) (rel : String) : Bool :=
  rs.any fun r => r.glob_set.isMatch rel

/-- Index of the first runner whose glob set matches the relative path. -/
def firstMatchIdx : List Runner → String → Option Nat
  | [], _ => none
  | r :: rs, rel =>
    if r.glob_set.isMatch rel then some 0
    else (firstMatchIdx rs rel).map (· + 1)

/-- Append one path at the end of the list held at the given position. -/
def pushAt : List (List String) → Nat → String → List (List String)
  | [], _, _ => []
  | l :: rest, 0, a => (l ++ [a]) :: rest
  | l :: rest, n + 1, a => l :: pushAt rest n a

/-- Process one candidate file (the per-file loop body of match_runners):
the file is matched against every runner in list order; with no match the
partitions are unchanged and an unmatched warning is emitted; otherwise the
file's absolute path is appended to the first matching runner's partition,
and when a later runner also matches, one conflict warning is emitted (the
loop warns once at the second match and stops). -/
def stepFile (rs : List Runner) (parts : List (List String)) (c : Candidate) :
    List (List String) × List Warning :=
  match firstMatchIdx rs c.rel with
  | none => (parts, [Warning.unmatched c.rel])
  | some i =>
    (pushAt parts i c.abs,
     if anyMatch (rs.drop (i + 1)) c.rel then [Warning.conflict c.rel] else [])

/-- Fold the classifier over the candidate stream, accumulating the
partitions and the emitted warnings in order. -/
def classifyAll (rs : List Runner) :
    List Candidate → List (List String) → List (List String) × List Warning
  | [], parts => (parts, [])
  | c :: cs, parts =>
    let st := stepFile rs parts c
    let rest := classifyAll rs cs st.1
    (rest.1, st.2 ++ rest.2)

/-- Walk the candidate stream and partition it by matching files against the
runners' patterns (src/project.rs match_runners): the result pairs every
runner with the ordered list of absolute paths it claimed, together with the
diagnostics emitted along the way. -/
def match_runners (rs : List Runner) (files : List Candidate) :
    List (Runner × List String) × List Warning :=
  let res := classifyAll rs files (rs.map fun _ => [])
  (rs.zip res.1, res.2)

namespace Project

/-- Run every runner of the project over the partitioned file stream
(src/project.rs run): each runner is dispatched once with its claimed paths
(there is no emptiness check and no short-circuit), and the overall result
is true exactly when every dispatch succeeded. -/
def run (p : Project) (files : List Candidate)
    (spawn : Command → Except String Int) :
    List (String × List String) × Bool :=
  let parts := (match_runners p.runners files).1
  (parts.map fun rf => (rf.1.name, rf.2),
   parts.all fun rf => (Runner.run rf.1 p.rootDir rf.2 spawn).isOk)

end Project

/-- Top-level outcome (src/main.rs): loading failure or any formatter
failure exits with code 1, otherwise 0; the second component is the list of
performed process invocations (empty when loading aborted the run). -/
def mainRun (rootDir : String) (formatters : List (String × FormatterConfig))
    (files : List Candidate) (spawn : Command → Except String Int) :
    Nat × List (String × List String) :=
  match Project.load rootDir formatters with
  | .error _ => (1, [])
  | .ok p =>
    let res := p.run files spawn
    ((if res.2 then 0 else 1), res.1)

/-- Whether a relative path is claimed by one runner and also matched by a
later one (the situation in which match_runners emits a conflict warning). -/
def hasConflict (rs : List Runner) (rel : String) : Bool :=
  match firstMatchIdx rs rel with
  | none => false
  | some i => anyMatch (rs.drop (i + 1)) rel

/-- Total number of occurrences of a path across all partitions. -/
def countOccs (p : String) (parts : List (List String)) : Nat :=
  (parts.map fun l => l.count p).sum

/-! ## Lemmas -/

theorem mapExcept_error_of_mem {f : α → Except ε β} {l : List α} {x : α}
    {e : ε} (hx : x ∈ l) (hf : f x = .error e) :
    ∃ e2, mapExcept f l = .error e2 := by
  induction l with
  | nil => cases hx
  | cons y ys ih =>
    rcases List.mem_cons.mp hx with rfl | hmem
    · exact ⟨e, by simp [mapExcept, hf]⟩
    · rcases h : f y with e2 | b
      · exact ⟨e2, by simp [mapExcept, h]⟩
      · rcases ih hmem with ⟨e2, h2⟩
        exact ⟨e2, by simp [mapExcept, h, h2]⟩

theorem mapExcept_from_formatter_names :
    ∀ {l : List (String × FormatterConfig)} {rs : List Runner},
      mapExcept (fun nf => Runner.from_formatter nf.1 nf.2) l = .ok rs →
      rs.map (fun r => r.name) = l.map (fun nf => nf.1)
  | [], rs, h => by
    simp [mapExcept] at h
    simp [← h]
  | nf :: l, rs, h => by
    simp only [mapExcept] at h
    rcases h1 : Runner.from_formatter nf.1 nf.2 with e | r <;> rw [h1] at h
    · cases h
    · rcases h2 : mapExcept (fun nf => Runner.from_formatter nf.1 nf.2) l
        with e | rest <;> rw [h2] at h
      · cases h
      · cases h
        have hname : r.name = nf.1 := by
          rw [Runner.from_formatter] at h1
          rcases hg : Runner.build_glob_set nf.2.patterns with e | gs <;>
            rw [hg] at h1
          · cases h1
          · cases h1; rfl
        simp [hname, mapExcept_from_formatter_names h2]

theorem charListLeb_trans : ∀ xs ys zs : List Char,
    charListLeb xs ys = true → charListLeb ys zs = true →
    charListLeb xs zs = true
  | [], _, _, _, _ => rfl
  | _ :: _, [], _, h1, _ => by simp [charListLeb] at h1
  | _ :: _, _ :: _, [], _, h2 => by simp [charListLeb] at h2
  | x :: xs, y :: ys, z :: zs, h1, h2 => by
    simp only [charListLeb] at h1 h2 ⊢
    split at h1
    next hxy =>
      split at h2
      next hyz =>
        have hxz : x.toNat < z.toNat := Nat.lt_trans hxy hyz
        simp [hxz]
      next hyz =>
        split at h2
        next hzy => cases h2
        next hzy =>
          have hxz : x.toNat < z.toNat := by omega
          simp [hxz]
    next hxy =>
      split at h1
      next hyx => cases h1
      next hyx =>
        split at h2
        next hyz =>
          have hxz : x.toNat < z.toNat := by omega
          simp [hxz]
        next hyz =>
          split at h2
          next hzy => cases h2
          next hzy =>
            have hxz : ¬ x.toNat < z.toNat := by omega
            have hzx : ¬ z.toNat < x.toNat := by omega
            simp only [hxz, hzx, if_false]
            exact charListLeb_trans xs ys zs h1 h2

theorem charListLeb_total : ∀ xs ys : List Char,
    charListLeb xs ys = true ∨ charListLeb ys xs = true
  | [], _ => .inl rfl
  | _ :: _, [] => .inr rfl
  | x :: xs, y :: ys => by
    simp only [charListLeb]
    rcases Nat.lt_trichotomy x.toNat y.toNat with h | h | h
    · left; simp [h]
    · have h1 : ¬ x.toNat < y.toNat := by omega
      have h2 : ¬ y.toNat < x.toNat := by omega
      rcases charListLeb_total xs ys with hh | hh
      · left; simp [h1, h2, hh]
      · right; simp [h1, h2, hh]
    · have h1 : ¬ x.toNat < y.toNat := by omega
      right; simp [h, h1]

theorem strLeb_trans {a b c : String} (h1 : strLeb a b = true)
    (h2 : strLeb b c = true) : strLeb a c = true :=
  charListLeb_trans _ _ _ h1 h2

theorem strLeb_total_of_not {a b : String} (h : ¬ strLeb a b = true) :
    strLeb b a = true := by
  rcases charListLeb_total a.toList b.toList with hh | hh
  · exact absurd hh h
  · exact hh

theorem mem_insertByName {x a : String × FormatterConfig}
    {l : List (String × FormatterConfig)} :
    a ∈ insertByName x l ↔ a = x ∨ a ∈ l := by
  induction l with
  | nil => simp [insertByName]
  | cons y ys ih =>
    by_cases h : strLeb x.1 y.1 = true <;> simp [insertByName, h, ih] <;>
      tauto

theorem mem_sortByName {a : String × FormatterConfig}
    {l : List (String × FormatterConfig)} :
    a ∈ sortByName l ↔ a ∈ l := by
  induction l with
  | nil => simp [sortByName]
  | cons y ys ih => simp [sortByName, mem_insertByName, ih]

theorem pairwise_insertByName {x : String × FormatterConfig}
    {l : List (String × FormatterConfig)}
    (h : l.Pairwise fun a b => strLeb a.1 b.1 = true) :
    (insertByName x l).Pairwise fun a b => strLeb a.1 b.1 = true := by
  induction l with
  | nil => simp [insertByName]
  | cons y ys ih =>
    rcases List.pairwise_cons.mp h with ⟨hy, hys⟩
    by_cases hxy : strLeb x.1 y.1 = true
    · simp only [insertByName, if_pos hxy]
      refine List.pairwise_cons.mpr ⟨?_, h⟩
      intro b hb
      rcases List.mem_cons.mp hb with rfl | hmem
      · exact hxy
      · exact strLeb_trans hxy (hy b hmem)
    · simp only [insertByName, if_neg hxy]
      refine List.pairwise_cons.mpr ⟨?_, ih hys⟩
      intro b hb
      rcases mem_insertByName.mp hb with rfl | hmem
      · exact strLeb_total_of_not hxy
      · exact hy b hmem

theorem sortByName_pairwise (l : List (String × FormatterConfig)) :
    (sortByName l).Pairwise fun a b => strLeb a.1 b.1 = true := by
  induction l with
  | nil => simp [sortByName]
  | cons y ys ih => exact pairwise_insertByName ih

theorem firstMatchIdx_lt {rs : List Runner} {rel : String} {i : Nat} :
    firstMatchIdx rs rel = some i → i < rs.length := by
  induction rs generalizing i with
  | nil => intro h; cases h
  | cons r rest ih =>
    intro h
    simp only [firstMatchIdx] at h
    by_cases hm : r.glob_set.isMatch rel
    · simp only [firstMatchIdx, hm, if_true, Option.some.injEq] at h
      simp only [List.length_cons]
      omega
    · simp [hm] at h
      rcases h with ⟨j, hj, rfl⟩
      have := ih hj
      simp
      omega

theorem firstMatchIdx_none_iff {rs : List Runner} {rel : String} :
    firstMatchIdx rs rel = none ↔ anyMatch rs rel = false := by
  induction rs with
  | nil => simp [firstMatchIdx, anyMatch]
  | cons r rest ih =>
    by_cases hm : r.glob_set.isMatch rel <;>
      simp [firstMatchIdx, anyMatch, hm] at ih ⊢ <;> simp [ih]

theorem pushAt_length (parts : List (List String)) (i : Nat) (a : String) :
    (pushAt parts i a).length = parts.length := by
  induction parts generalizing i with
  | nil => rfl
  | cons l rest ih => cases i <;> simp [pushAt, ih]

theorem get_pushAt_self {parts : List (List String)} {i : Nat} {a : String}
    (hi : i < parts.length) (h2 : i < (pushAt parts i a).length) :
    (pushAt parts i a).get ⟨i, h2⟩ = parts.get ⟨i, hi⟩ ++ [a] := by
  induction parts generalizing i with
  | nil => cases hi
  | cons l rest ih =>
    cases i with
    | zero => rfl
    | succ n => exact ih (Nat.lt_of_succ_lt_succ hi) _

theorem get_pushAt_ne {parts : List (List String)} {i j : Nat} {a : String}
    (hne : j ≠ i) (hj : j < parts.length)
    (h2 : j < (pushAt parts i a).length) :
    (pushAt parts i a).get ⟨j, h2⟩ = parts.get ⟨j, hj⟩ := by
  induction parts generalizing i j with
  | nil => cases hj
  | cons l rest ih =>
    cases i with
    | zero =>
      cases j with
      | zero => exact absurd rfl hne
      | succ m => rfl
    | succ n =>
      cases j with
      | zero => rfl
      | succ m =>
        exact ih (fun h => hne (by omega)) (Nat.lt_of_succ_lt_succ hj) _

theorem countOccs_pushAt_le (parts : List (List String)) (i : Nat)
    (a p : String) :
    countOccs p (pushAt parts i a) ≤
      countOccs p parts + List.count p [a] := by
  induction parts generalizing i with
  | nil => simp [pushAt, countOccs]
  | cons l rest ih =>
    cases i with
    | zero =>
      simp only [pushAt, countOccs, List.map_cons, List.sum_cons,
        List.count_append]
      omega
    | succ n =>
      have := ih n
      simp only [pushAt, countOccs, List.map_cons, List.sum_cons] at this ⊢
      omega

theorem stepFile_length (rs : List Runner) (parts : List (List String))
    (c : Candidate) : ((stepFile rs parts c).1).length = parts.length := by
  rcases h : firstMatchIdx rs c.rel with _ | i <;>
    simp [stepFile, h, pushAt_length]

theorem classifyAll_parts_length (rs : List Runner) (files : List Candidate)
    (parts : List (List String)) :
    ((classifyAll rs files parts).1).length = parts.length := by
  induction files generalizing parts with
  | nil => rfl
  | cons c cs ih =>
    simp only [classifyAll]
    rw [ih]
    exact stepFile_length rs parts c

theorem get_eq_of_eq {l l2 : List α} (h : l = l2) (j : Nat)
    (hj : j < l.length) (hj2 : j < l2.length) :
    l.get ⟨j, hj⟩ = l2.get ⟨j, hj2⟩ := by
  subst h; rfl

theorem stepFile_parts_none {rs : List Runner}
    {parts : List (List String)} {c : Candidate}
    (h : firstMatchIdx rs c.rel = none) :
    (stepFile rs parts c).1 = parts := by
  unfold stepFile
  rw [h]

theorem stepFile_parts_some {rs : List Runner}
    {parts : List (List String)} {c : Candidate} {i : Nat}
    (h : firstMatchIdx rs c.rel = some i) :
    (stepFile rs parts c).1 = pushAt parts i c.abs := by
  unfold stepFile
  rw [h]

theorem stepFile_count_le (rs : List Runner) (parts : List (List String))
    (c : Candidate) (p : String) :
    countOccs p ((stepFile rs parts c).1) ≤
      countOccs p parts + List.count p [c.abs] := by
  rcases h : firstMatchIdx rs c.rel with _ | i
  · rw [stepFile_parts_none h]
    exact Nat.le_add_right _ _
  · rw [stepFile_parts_some h]
    exact countOccs_pushAt_le parts i c.abs p

theorem classifyAll_count_le (rs : List Runner) (files : List Candidate)
    (parts : List (List String)) (p : String) :
    countOccs p ((classifyAll rs files parts).1) ≤
      countOccs p parts + (files.map fun c => c.abs).count p := by
  induction files generalizing parts with
  | nil => simp [classifyAll]
  | cons c cs ih =>
    have ecl : countOccs p ((classifyAll rs (c :: cs) parts).1) =
        countOccs p ((classifyAll rs cs ((stepFile rs parts c).1)).1) := rfl
    have e3 : ((c :: cs).map fun x => x.abs).count p =
        (cs.map fun x => x.abs).count p + List.count p [c.abs] := by
      simp [List.count_cons]
    rw [ecl, e3]
    have h1 := ih ((stepFile rs parts c).1)
    have h2 := stepFile_count_le rs parts c p
    omega

theorem stepFile_get_mono {rs : List Runner} {parts : List (List String)}
    {c : Candidate} {x : String} {j : Nat} (hj : j < parts.length)
    (hj2 : j < ((stepFile rs parts c).1).length)
    (hx : x ∈ parts.get ⟨j, hj⟩) :
    x ∈ ((stepFile rs parts c).1).get ⟨j, hj2⟩ := by
  rcases h : firstMatchIdx rs c.rel with _ | i
  · rw [get_eq_of_eq (stepFile_parts_none h) j hj2 hj]
    exact hx
  · have hp : j < (pushAt parts i c.abs).length := by
      rw [pushAt_length]; exact hj
    rw [get_eq_of_eq (stepFile_parts_some h) j hj2 hp]
    by_cases hji : j = i
    · subst hji
      rw [get_pushAt_self hj]
      exact List.mem_append_left _ hx
    · rw [get_pushAt_ne hji hj]
      exact hx

theorem classifyAll_get_mono {rs : List Runner} {files : List Candidate}
    {parts : List (List String)} {x : String} {j : Nat}
    (hj : j < parts.length)
    (hj2 : j < ((classifyAll rs files parts).1).length)
    (hx : x ∈ parts.get ⟨j, hj⟩) :
    x ∈ ((classifyAll rs files parts).1).get ⟨j, hj2⟩ := by
  induction files generalizing parts with
  | nil => exact hx
  | cons c cs ih =>
    have hstep : j < ((stepFile rs parts c).1).length := by
      rw [stepFile_length]; exact hj
    have hj3 : j < ((classifyAll rs cs ((stepFile rs parts c).1)).1).length := by
      rw [classifyAll_parts_length, stepFile_length]; exact hj
    have hcons : (classifyAll rs (c :: cs) parts).1 =
        (classifyAll rs cs ((stepFile rs parts c).1)).1 := rfl
    rw [get_eq_of_eq hcons j hj2 hj3]
    exact ih hstep hj3 (stepFile_get_mono hj hstep hx)

theorem classifyAll_append (rs : List Runner) (xs ys : List Candidate)
    (parts : List (List String)) :
    classifyAll rs (xs ++ ys) parts =
      (((classifyAll rs ys ((classifyAll rs xs parts).1)).1),
       (classifyAll rs xs parts).2 ++
         (classifyAll rs ys ((classifyAll rs xs parts).1)).2) := by
  induction xs generalizing parts with
  | nil => simp [classifyAll]
  | cons c cs ih =>
    have e0 : classifyAll rs ((c :: cs) ++ ys) parts =
        ((classifyAll rs (cs ++ ys) ((stepFile rs parts c).1)).1,
         (stepFile rs parts c).2 ++
           (classifyAll rs (cs ++ ys) ((stepFile rs parts c).1)).2) := rfl
    have e2 : classifyAll rs (c :: cs) parts =
        ((classifyAll rs cs ((stepFile rs parts c).1)).1,
         (stepFile rs parts c).2 ++
           (classifyAll rs cs ((stepFile rs parts c).1)).2) := rfl
    rw [e0, ih ((stepFile rs parts c).1), e2]
    simp [List.append_assoc]

theorem stepFile_unmatched_count (rs : List Runner)
    (parts : List (List String)) (c : Candidate) (q : String) :
    ((stepFile rs parts c).2).count (Warning.unmatched q) =
      (if c.rel == q && (firstMatchIdx rs c.rel).isNone then 1 else 0) := by
  rcases h : firstMatchIdx rs c.rel with _ | i
  · have e : (stepFile rs parts c).2 = [Warning.unmatched c.rel] := by
      unfold stepFile; rw [h]
    rw [e]
    by_cases hrel : c.rel = q
    · subst hrel; simp
    · simp [List.count_cons, hrel]
  · have e : (stepFile rs parts c).2 =
        (if anyMatch (rs.drop (i + 1)) c.rel then [Warning.conflict c.rel]
         else []) := by
      unfold stepFile; rw [h]
    rw [e]
    rcases anyMatch (rs.drop (i + 1)) c.rel with _ | _ <;> simp

theorem stepFile_conflict_count (rs : List Runner)
    (parts : List (List String)) (c : Candidate) (q : String) :
    ((stepFile rs parts c).2).count (Warning.conflict q) =
      (if c.rel == q && hasConflict rs c.rel then 1 else 0) := by
  rcases h : firstMatchIdx rs c.rel with _ | i
  · have e : (stepFile rs parts c).2 = [Warning.unmatched c.rel] := by
      unfold stepFile; rw [h]
    rw [e]
    simp [hasConflict, h]
  · have e : (stepFile rs parts c).2 =
        (if anyMatch (rs.drop (i + 1)) c.rel then [Warning.conflict c.rel]
         else []) := by
      unfold stepFile; rw [h]
    rw [e]
    have e2 : hasConflict rs c.rel = anyMatch (rs.drop (i + 1)) c.rel := by
      unfold hasConflict; rw [h]
    rw [e2]
    rcases anyMatch (rs.drop (i + 1)) c.rel with _ | _
    · simp
    · by_cases hrel : c.rel = q
      · subst hrel; simp
      · simp [List.count_cons, hrel]

theorem classifyAll_unmatched_count (rs : List Runner)
    (files : List Candidate) (parts : List (List String)) (q : String) :
    ((classifyAll rs files parts).2).count (Warning.unmatched q) =
      files.countP
        (fun c => c.rel == q && (firstMatchIdx rs c.rel).isNone) := by
  induction files generalizing parts with
  | nil => simp [classifyAll]
  | cons c cs ih =>
    simp only [classifyAll, List.countP_cons, List.count_append,
      stepFile_unmatched_count, ih]
    omega

theorem classifyAll_conflict_count (rs : List Runner)
    (files : List Candidate) (parts : List (List String)) (q : String) :
    ((classifyAll rs files parts).2).count (Warning.conflict q) =
      files.countP (fun c => c.rel == q && hasConflict rs c.rel) := by
  induction files generalizing parts with
  | nil => simp [classifyAll]
  | cons c cs ih =>
    simp only [classifyAll, List.countP_cons, List.count_append,
      stepFile_conflict_count, ih]
    omega

theorem get_le_sum (l : List Nat) (i : Fin l.length) : l.get i ≤ l.sum :=
  List.single_le_sum (fun x _ => Nat.zero_le x) _ (List.get_mem l i.1 i.2)

theorem two_get_le_sum (l : List Nat) (i j : Nat) (hi : i < l.length)
    (hj : j < l.length) (hne : i ≠ j) :
    l.get ⟨i, hi⟩ + l.get ⟨j, hj⟩ ≤ l.sum := by
  induction l generalizing i j with
  | nil => cases hi
  | cons x xs ih =>
    cases i with
    | zero =>
      cases j with
      | zero => exact absurd rfl hne
      | succ m =>
        have h1 := get_le_sum xs ⟨m, Nat.lt_of_succ_lt_succ hj⟩
        have e1 : (x :: xs).get ⟨0, hi⟩ = x := rfl
        have e2 : (x :: xs).get ⟨m + 1, hj⟩ =
            xs.get ⟨m, Nat.lt_of_succ_lt_succ hj⟩ := rfl
        rw [e1, e2, List.sum_cons]
        omega
    | succ n =>
      cases j with
      | zero =>
        have h1 := get_le_sum xs ⟨n, Nat.lt_of_succ_lt_succ hi⟩
        have e1 : (x :: xs).get ⟨0, hj⟩ = x := rfl
        have e2 : (x :: xs).get ⟨n + 1, hi⟩ =
            xs.get ⟨n, Nat.lt_of_succ_lt_succ hi⟩ := rfl
        rw [e1, e2, List.sum_cons]
        omega
      | succ m =>
        have h1 := ih n m (Nat.lt_of_succ_lt_succ hi)
          (Nat.lt_of_succ_lt_succ hj) (fun h => hne (by omega))
        have e1 : (x :: xs).get ⟨n + 1, hi⟩ =
            xs.get ⟨n, Nat.lt_of_succ_lt_succ hi⟩ := rfl
        have e2 : (x :: xs).get ⟨m + 1, hj⟩ =
            xs.get ⟨m, Nat.lt_of_succ_lt_succ hj⟩ := rfl
        rw [e1, e2, List.sum_cons]
        omega

theorem countP_mem_le_countOccs (p : String) (parts : List (List String)) :
    parts.countP (fun l => decide (p ∈ l)) ≤ countOccs p parts := by
  induction parts with
  | nil => simp [countOccs]
  | cons l rest ih =>
    simp only [List.countP_cons, countOccs, List.map_cons, List.sum_cons]
    simp only [countOccs] at ih
    by_cases hm : p ∈ l
    · have h1 : 0 < l.count p := List.count_pos_iff.mpr hm
      have h2 : (if decide (p ∈ l) = true then 1 else 0) = 1 := by simp [hm]
      rw [h2]
      omega
    · have h2 : (if decide (p ∈ l) = true then 1 else 0) = 0 := by simp [hm]
      rw [h2]
      omega

theorem countP_zip_le (rs : List Runner) (parts : List (List String))
    (p : String) :
    (rs.zip parts).countP (fun e => decide (p ∈ e.2)) ≤
      parts.countP (fun l => decide (p ∈ l)) := by
  induction rs generalizing parts with
  | nil => simp
  | cons r rest ih =>
    cases parts with
    | nil => simp
    | cons l ls =>
      simp only [List.zip_cons_cons, List.countP_cons]
      have := ih ls
      omega

theorem match_runners_parts_length (rs : List Runner)
    (files : List Candidate) :
    ((match_runners rs files).1).length = rs.length := by
  simp [match_runners, List.length_zip, classifyAll_parts_length]

theorem count_map_abs (files : List Candidate) (p : String) :
    (files.map fun c => c.abs).count p =
      files.countP fun c => c.abs == p := by
  rw [List.count_eq_countP, List.countP_map]
  rfl

theorem count_map_rel (files : List Candidate) (q : String) :
    (files.map fun c => c.rel).count q =
      files.countP fun c => c.rel == q := by
  rw [List.count_eq_countP, List.countP_map]
  rfl

theorem zip_get_pair {l1 : List α} {l2 : List β} {i : Nat}
    (h : i < (l1.zip l2).length) (h1 : i < l1.length) (h2 : i < l2.length) :
    (l1.zip l2).get ⟨i, h⟩ = (l1.get ⟨i, h1⟩, l2.get ⟨i, h2⟩) := by
  induction l1 generalizing l2 i with
  | nil => cases h1
  | cons x xs ih =>
    cases l2 with
    | nil => cases h2
    | cons y ys =>
      cases i with
      | zero => rfl
      | succ n =>
        exact ih (by simpa using h) (Nat.lt_of_succ_lt_succ h1)
          (Nat.lt_of_succ_lt_succ h2)

theorem get_map_fin {f : α → β} {l : List α} {i : Nat}
    (hi : i < l.length) (hm : i < (l.map f).length) :
    (l.map f).get ⟨i, hm⟩ = f (l.get ⟨i, hi⟩) := by
  induction l generalizing i with
  | nil => cases hi
  | cons x xs ih =>
    cases i with
    | zero => rfl
    | succ n => exact ih (Nat.lt_of_succ_lt_succ hi) _

theorem count_split_zero [DecidableEq β] {l1 l2 : List α} {c : α}
    (f : α → β) (h1 : ((l1 ++ c :: l2).map f).count (f c) = 1) :
    ((l1.map f).count (f c) = 0) ∧ ((l2.map f).count (f c) = 0) := by
  simp only [List.map_append, List.map_cons, List.count_append,
    List.count_cons, beq_self_eq_true, if_true] at h1
  omega

theorem countOccs_init_zero (p : String) (rs : List Runner) :
    countOccs p (rs.map fun _ => ([] : List String)) = 0 := by
  induction rs with
  | nil => rfl
  | cons r rest ih => simpa [countOccs] using ih

theorem load_runner_names {rootDir : String}
    {cfg : List (String × FormatterConfig)} {proj : Project}
    (hload : Project.load rootDir cfg = .ok proj) :
    proj.runners.map (fun r => r.name) = (sortByName cfg).map fun nf => nf.1 := by
  unfold Project.load at hload
  rcases hm : mapExcept (fun nf => Runner.from_formatter nf.1 nf.2)
      (sortByName cfg) with e | rs0 <;> rw [hm] at hload
  · cases hload
  · cases hload
    exact mapExcept_from_formatter_names hm

theorem load_sorted_names {rootDir : String}
    {cfg : List (String × FormatterConfig)} {proj : Project}
    (hload : Project.load rootDir cfg = .ok proj) :
    (proj.runners.map fun r => r.name).Pairwise
      fun a b => strLeb a b = true := by
  rw [load_runner_names hload]
  exact List.pairwise_map.mpr (sortByName_pairwise cfg)

theorem classifyAll_split (rs : List Runner) (l1 l2 : List Candidate)
    (c : Candidate) (init : List (List String)) :
    (classifyAll rs (l1 ++ c :: l2) init).1 =
      (classifyAll rs l2
        ((stepFile rs ((classifyAll rs l1 init).1) c).1)).1 := by
  rw [classifyAll_append rs l1 (c :: l2) init]
  rfl

/--
C4: partition exclusivity.  For every runner list, every candidate stream,
and every path occurring at most once among the candidates' absolute paths,
at most one partition produced by match_runners contains that path.
-/
theorem partition_exclusivity (rs : List Runner) (files : List Candidate)
    (p : String)
    (h1 : (files.map fun c => c.abs).count p ≤ 1) :
    ((match_runners rs files).1).countP (fun e => decide (p ∈ e.2)) ≤ 1 := by
  have hparts := classifyAll_count_le rs files (rs.map fun _ => []) p
  rw [countOccs_init_zero] at hparts
  have hz := countP_zip_le rs ((classifyAll rs files (rs.map fun _ => [])).1) p
  have hm := countP_mem_le_countOccs p
    ((classifyAll rs files (rs.map fun _ => [])).1)
  have e : (match_runners rs files).1 =
      rs.zip ((classifyAll rs files (rs.map fun _ => [])).1) := rfl
  rw [e]
  omega

/--
Witness for C4 at a concrete input: one star-pattern runner, one candidate
file; the path of the file is contained in exactly one partition.
-/
theorem partition_exclusivity_witness :
    ((match_runners
        [{ name := "a", glob_set := [[GTok.star]], program := "p",
           shell := false, args := [], env := [] }]
        [{ abs := "/r/f", rel := "f" }]).1).countP
      (fun e => decide ("/r/f" ∈ e.2)) ≤ 1 :=
  partition_exclusivity _ _ _ (by decide)

/-- A runner named a with the single pattern star (matches every path). -/
def runnerStarA : Runner :=
  { name := "a", glob_set := [[GTok.star]], program := "p",
    shell := false, args := [], env := [] }

/-- A runner named a matching only the literal relative path q. -/
def runnerLitQ : Runner :=
  { name := "a", glob_set := [[GTok.lit 'q']], program := "p",
    shell := false, args := [], env := [] }

/-- A concrete candidate file. -/
def cand1 : Candidate := { abs := "/r/f", rel := "f" }

theorem countP_unique_rel {l1 l2 : List Candidate} {c : Candidate}
    (pred : Candidate → Bool)
    (hrel : ((l1 ++ c :: l2).map fun x : Candidate => x.rel).count c.rel = 1)
    (hpred : ∀ x, pred x = true → (x.rel == c.rel) = true)
    (hc : pred c = true) :
    (l1 ++ c :: l2).countP pred = 1 := by
  obtain ⟨hz1, hz2⟩ := count_split_zero (fun x : Candidate => x.rel) hrel
  rw [count_map_rel] at hz1 hz2
  have hm1 : l1.countP pred ≤ l1.countP fun x => x.rel == c.rel :=
    List.countP_mono_left fun x _ hx => hpred x hx
  have hm2 : l2.countP pred ≤ l2.countP fun x => x.rel == c.rel :=
    List.countP_mono_left fun x _ hx => hpred x hx
  rw [List.countP_append, List.countP_cons]
  rw [hc]
  simp only [if_true]
  omega

/--
C7: a candidate file whose relative path is matched by no runner is excluded
from every partition, and exactly one unmatched warning naming its relative
path is emitted, provided the walker yields the file once (its absolute and
relative paths each occur once in the stream).
-/
theorem unmatched_file_excluded_warned (rs : List Runner)
    (files : List Candidate) (c : Candidate)
    (hc : c ∈ files)
    (habs : (files.map fun x => x.abs).count c.abs = 1)
    (hrel : (files.map fun x => x.rel).count c.rel = 1)
    (hnone : firstMatchIdx rs c.rel = none) :
    (∀ e ∈ (match_runners rs files).1, c.abs ∉ e.2) ∧
    ((match_runners rs files).2).count (Warning.unmatched c.rel) = 1 := by
  obtain ⟨l1, l2, hsplit⟩ := List.append_of_mem hc
  subst hsplit
  obtain ⟨hz1, hz2⟩ := count_split_zero (fun x : Candidate => x.abs) habs
  constructor
  · -- the file's path lands in no partition
    have hA := classifyAll_count_le rs l1 (rs.map fun _ => []) c.abs
    rw [countOccs_init_zero, hz1] at hA
    have hB := classifyAll_count_le rs l2
      ((stepFile rs ((classifyAll rs l1 (rs.map fun _ => [])).1) c).1) c.abs
    rw [hz2] at hB
    have hstepEq : (stepFile rs ((classifyAll rs l1 (rs.map fun _ => [])).1)
        c).1 = (classifyAll rs l1 (rs.map fun _ => [])).1 :=
      stepFile_parts_none hnone
    rw [hstepEq] at hB
    have hfinEq : (classifyAll rs (l1 ++ c :: l2)
        (rs.map fun _ => [])).1 =
        (classifyAll rs l2
          ((stepFile rs ((classifyAll rs l1 (rs.map fun _ => [])).1) c).1)).1 :=
      classifyAll_split rs l1 l2 c _
    rw [hstepEq] at hfinEq
    intro e he hmem
    have h2 : e.2 ∈ (classifyAll rs (l1 ++ c :: l2)
        (rs.map fun _ => [])).1 := (List.of_mem_zip he).2
    have h3 : 0 < e.2.count c.abs := List.count_pos_iff.mpr hmem
    have h4 : e.2.count c.abs ≤
        countOccs c.abs ((classifyAll rs (l1 ++ c :: l2)
          (rs.map fun _ => [])).1) :=
      List.single_le_sum (fun x _ => Nat.zero_le x) _
        (List.mem_map_of_mem _ h2)
    rw [hfinEq] at h4
    omega
  · -- exactly one unmatched diagnostic for the file
    have e2 : (match_runners rs (l1 ++ c :: l2)).2 =
        (classifyAll rs (l1 ++ c :: l2) (rs.map fun _ => [])).2 := rfl
    rw [e2, classifyAll_unmatched_count]
    exact countP_unique_rel _ hrel
      (fun x hx => (Bool.and_eq_true _ _ |>.mp hx).1)
      (by simp [hnone])

/--
Witness for C7 at a concrete input: a runner whose single pattern matches
only the literal path q does not match the candidate with relative path f,
so that candidate is claimed by no partition and warned about exactly once.
-/
theorem unmatched_file_excluded_warned_witness :
    (∀ e ∈ (match_runners [runnerLitQ] [cand1]).1, "/r/f" ∉ e.2) ∧
    ((match_runners [runnerLitQ] [cand1]).2).count
      (Warning.unmatched "f") = 1 :=
  unmatched_file_excluded_warned [runnerLitQ] [cand1] cand1 (by decide)
    (by decide) (by decide) (by decide)

/-- A star-pattern formatter configuration. -/
def cfgStar : FormatterConfig :=
  { program := "p", shell := false, args := [], env := [], patterns := ["*"] }

/-- A configuration declaring formatter b before formatter a, both with a
star pattern matching every path. -/
def cfgBA : List (String × FormatterConfig) := [("b", cfgStar), ("a", cfgStar)]

/--
C1 counterexample: with formatters declared in the order b, a (both matching
every path), the file f is assigned to a (the first in ascending name order)
and not to b (the first in declaration order), with one conflict warning.
This refutes the claim that the first matching formatter in configuration
(declaration) order receives the file: the BTreeMap holding the parsed
configuration iterates by name, not by declaration position.
-/
theorem classifier_declaration_order_refuted :
    (Project.load "" cfgBA).map
        (fun p =>
          (match_runners p.runners [cand1]).1.map fun e => (e.1.name, e.2)) =
      .ok [("a", ["/r/f"]), ("b", [])] ∧
    (Project.load "" cfgBA).map
        (fun p => (match_runners p.runners [cand1]).2) =
      .ok [Warning.conflict "f"] := by
  constructor <;> decide

/--
C1 (amended): the loaded runners stand in ascending name order (the
iteration order of the BTreeMap holding the configuration), and a file
matched by two or more runners is claimed by the first matching runner in
that order, the later matching runners do not receive it, and exactly one
conflict diagnostic naming the file is emitted (assuming the walker yields
the file once).
-/
theorem classifier_first_match_name_order
    (rootDir : String) (cfg : List (String × FormatterConfig))
    (proj : Project) (files : List Candidate) (c : Candidate) (i : Nat)
    (hload : Project.load rootDir cfg = .ok proj)
    (hc : c ∈ files)
    (habs : (files.map fun x => x.abs).count c.abs = 1)
    (hrel : (files.map fun x => x.rel).count c.rel = 1)
    (hfirst : firstMatchIdx proj.runners c.rel = some i)
    (hconf : anyMatch (proj.runners.drop (i + 1)) c.rel = true) :
    ((proj.runners.map fun r => r.name).Pairwise
      fun a b => strLeb a b = true) ∧
    (∃ h : i < ((match_runners proj.runners files).1).length,
        c.abs ∈ (((match_runners proj.runners files).1).get ⟨i, h⟩).2) ∧
    (∀ j (hj : j < ((match_runners proj.runners files).1).length), j ≠ i →
        c.abs ∉ (((match_runners proj.runners files).1).get ⟨j, hj⟩).2) ∧
    ((match_runners proj.runners files).2).count (Warning.conflict c.rel)
      = 1 := by
  obtain ⟨l1, l2, hsplit⟩ := List.append_of_mem hc
  subst hsplit
  obtain ⟨hz1, hz2⟩ := count_split_zero (fun x : Candidate => x.abs) habs
  have hi : i < proj.runners.length := firstMatchIdx_lt hfirst
  -- abbreviations
  have hlenA : ((classifyAll proj.runners l1
      (proj.runners.map fun _ => [])).1).length = proj.runners.length := by
    rw [classifyAll_parts_length, List.length_map]
  have hfinEq : (classifyAll proj.runners (l1 ++ c :: l2)
      (proj.runners.map fun _ => [])).1 =
      (classifyAll proj.runners l2
        ((stepFile proj.runners
          ((classifyAll proj.runners l1 (proj.runners.map fun _ => [])).1)
          c).1)).1 :=
    classifyAll_split proj.runners l1 l2 c _
  have hlenStep : ((stepFile proj.runners
      ((classifyAll proj.runners l1 (proj.runners.map fun _ => [])).1)
      c).1).length = proj.runners.length := by
    rw [stepFile_length]; exact hlenA
  have hlenFin : ((classifyAll proj.runners (l1 ++ c :: l2)
      (proj.runners.map fun _ => [])).1).length = proj.runners.length := by
    rw [classifyAll_parts_length, List.length_map]
  have hlenZip : ((match_runners proj.runners (l1 ++ c :: l2)).1).length =
      proj.runners.length :=
    match_runners_parts_length _ _
  -- membership of the file in the first matching partition
  have hiA : i < ((classifyAll proj.runners l1
      (proj.runners.map fun _ => [])).1).length := by rw [hlenA]; exact hi
  have hiStep : i < ((stepFile proj.runners
      ((classifyAll proj.runners l1 (proj.runners.map fun _ => [])).1)
      c).1).length := by rw [hlenStep]; exact hi
  have hiPush : i < (pushAt
      ((classifyAll proj.runners l1 (proj.runners.map fun _ => [])).1)
      i c.abs).length := by rw [pushAt_length]; exact hiA
  have hmemStep : c.abs ∈ ((stepFile proj.runners
      ((classifyAll proj.runners l1 (proj.runners.map fun _ => [])).1)
      c).1).get ⟨i, hiStep⟩ := by
    rw [get_eq_of_eq (stepFile_parts_some hfirst) i hiStep hiPush,
      get_pushAt_self hiA]
    exact List.mem_append_right _ (by simp)
  have hiFin : i < ((classifyAll proj.runners (l1 ++ c :: l2)
      (proj.runners.map fun _ => [])).1).length := by rw [hlenFin]; exact hi
  have hiFin2 : i < ((classifyAll proj.runners l2
      ((stepFile proj.runners
        ((classifyAll proj.runners l1 (proj.runners.map fun _ => [])).1)
        c).1)).1).length := by
    rw [classifyAll_parts_length, stepFile_length, hlenA]; exact hi
  have hmemFin : c.abs ∈ ((classifyAll proj.runners (l1 ++ c :: l2)
      (proj.runners.map fun _ => [])).1).get ⟨i, hiFin⟩ := by
    rw [get_eq_of_eq hfinEq i hiFin hiFin2]
    exact classifyAll_get_mono hiStep hiFin2 hmemStep
  -- the total number of occurrences of the path is at most one
  have hcount : countOccs c.abs ((classifyAll proj.runners (l1 ++ c :: l2)
      (proj.runners.map fun _ => [])).1) ≤ 1 := by
    have h := classifyAll_count_le proj.runners (l1 ++ c :: l2)
      (proj.runners.map fun _ => []) c.abs
    rw [countOccs_init_zero, habs] at h
    omega
  have emr : (match_runners proj.runners (l1 ++ c :: l2)).1 =
      proj.runners.zip ((classifyAll proj.runners (l1 ++ c :: l2)
        (proj.runners.map fun _ => [])).1) := rfl
  have hzipLen : (proj.runners.zip ((classifyAll proj.runners (l1 ++ c :: l2)
      (proj.runners.map fun _ => [])).1)).length = proj.runners.length := by
    rw [List.length_zip, hlenFin, min_self]
  refine ⟨load_sorted_names hload, ⟨by rw [hlenZip]; exact hi, ?_⟩, ?_, ?_⟩
  · -- the first matching partition contains the path
    have hizip : i < (proj.runners.zip ((classifyAll proj.runners
        (l1 ++ c :: l2) (proj.runners.map fun _ => [])).1)).length := by
      rw [hzipLen]; exact hi
    rw [get_eq_of_eq emr i (by rw [hlenZip]; exact hi) hizip,
      zip_get_pair hizip hi hiFin]
    exact hmemFin
  · -- later matching partitions do not contain the path
    intro j hj hne hmemj
    have hjr : j < proj.runners.length := by rw [← hlenZip]; exact hj
    have hjFin : j < ((classifyAll proj.runners (l1 ++ c :: l2)
        (proj.runners.map fun _ => [])).1).length := by
      rw [hlenFin]; exact hjr
    have hjzip : j < (proj.runners.zip ((classifyAll proj.runners
        (l1 ++ c :: l2) (proj.runners.map fun _ => [])).1)).length := by
      rw [hzipLen]; exact hjr
    rw [get_eq_of_eq emr j hj hjzip, zip_get_pair hjzip hjr hjFin] at hmemj
    have hci : 0 < (((classifyAll proj.runners (l1 ++ c :: l2)
        (proj.runners.map fun _ => [])).1).get ⟨i, hiFin⟩).count c.abs :=
      List.count_pos_iff.mpr hmemFin
    have hcj : 0 < (((classifyAll proj.runners (l1 ++ c :: l2)
        (proj.runners.map fun _ => [])).1).get ⟨j, hjFin⟩).count c.abs :=
      List.count_pos_iff.mpr hmemj
    have hmi : i < (((classifyAll proj.runners (l1 ++ c :: l2)
        (proj.runners.map fun _ => [])).1).map
          fun l => l.count c.abs).length := by
      rw [List.length_map]; exact hiFin
    have hmj : j < (((classifyAll proj.runners (l1 ++ c :: l2)
        (proj.runners.map fun _ => [])).1).map
          fun l => l.count c.abs).length := by
      rw [List.length_map]; exact hjFin
    have h2 := two_get_le_sum (((classifyAll proj.runners (l1 ++ c :: l2)
        (proj.runners.map fun _ => [])).1).map fun l => l.count c.abs)
      i j hmi hmj (fun h => hne h.symm)
    rw [get_map_fin hiFin hmi, get_map_fin hjFin hmj] at h2
    have hsum : (((classifyAll proj.runners (l1 ++ c :: l2)
        (proj.runners.map fun _ => [])).1).map
          fun l => l.count c.abs).sum =
        countOccs c.abs ((classifyAll proj.runners (l1 ++ c :: l2)
          (proj.runners.map fun _ => [])).1) := rfl
    rw [hsum] at h2
    omega
  · -- exactly one conflict diagnostic names the file
    have e2 : (match_runners proj.runners (l1 ++ c :: l2)).2 =
        (classifyAll proj.runners (l1 ++ c :: l2)
          (proj.runners.map fun _ => [])).2 := rfl
    rw [e2, classifyAll_conflict_count]
    refine countP_unique_rel _ hrel
      (fun x hx => (Bool.and_eq_true _ _ |>.mp hx).1) ?_
    have hcf : hasConflict proj.runners c.rel = true := by
      unfold hasConflict; rw [hfirst]; exact hconf
    simp [hcf]

/-- The runner named b with a star pattern. -/
def runnerStarB : Runner :=
  { name := "b", glob_set := [[GTok.star]], program := "p",
    shell := false, args := [], env := [] }

/-- The project obtained by loading cfgBA: runners in ascending name order. -/
def projBA : Project := { rootDir := "", runners := [runnerStarA, runnerStarB] }

/--
Witness for C1 (amended) at the concrete two-formatter configuration of the
counterexample: applying the theorem there shows the conflict diagnostic for
the file f is emitted exactly once.
-/
theorem classifier_first_match_name_order_witness :
    Project.load "" cfgBA = .ok projBA ∧
    ((match_runners projBA.runners [cand1]).2).count (Warning.conflict "f")
      = 1 :=
  ⟨by decide,
   (classifier_first_match_name_order "" cfgBA projBA [cand1] cand1 0
     (by decide) (by decide) (by decide) (by decide) (by decide)
     (by decide)).2.2.2⟩

/-- A formatter configuration with an empty patterns list. -/
def cfgEmptyPat : FormatterConfig :=
  { program := "p", shell := false, args := [], env := [], patterns := [] }

/--
C2 counterexample: a project with one formatter whose patterns list is empty
and an empty file stream has every partition empty, yet running it performs
one process invocation (for that formatter) instead of zero: project.rs run
has no emptiness check before dispatching.
-/
theorem empty_partition_still_invoked :
    (Project.load "" [("a", cfgEmptyPat)]).map
        (fun p => ((Project.run p [] fun _ => Except.ok 0).1,
          (match_runners p.runners []).1.map fun e => e.2)) =
      .ok ([("a", [])], [[]]) := by
  decide

/--
C2 (amended): every formatter is dispatched exactly once whether or not its
partition is empty: the number of performed invocations equals the number of
runners, and the run succeeds exactly when every dispatch (including those
with an empty file list) succeeds.
-/
theorem run_invokes_empty_partitions (rootDir : String)
    (runners : List Runner) (files : List Candidate)
    (spawn : Command → Except String Int) :
    ((Project.run ⟨rootDir, runners⟩ files spawn).1).length =
      runners.length ∧
    ((Project.run ⟨rootDir, runners⟩ files spawn).2 = true ↔
      ∀ rf ∈ (match_runners runners files).1,
        (Runner.run rf.1 rootDir rf.2 spawn).isOk = true) := by
  constructor
  · have e : (Project.run ⟨rootDir, runners⟩ files spawn).1 =
        ((match_runners runners files).1).map fun rf => (rf.1.name, rf.2) :=
      rfl
    rw [e, List.length_map, match_runners_parts_length]
  · have e : (Project.run ⟨rootDir, runners⟩ files spawn).2 =
        ((match_runners runners files).1).all fun rf =>
          (Runner.run rf.1 rootDir rf.2 spawn).isOk := rfl
    rw [e, List.all_eq_true]

/--
Witness for C2 (amended): one star-pattern formatter and no files; the run
performs one invocation and succeeds when the spawn oracle reports exit
status zero.
-/
theorem run_invokes_empty_partitions_witness :
    ((Project.run ⟨"", [runnerStarA]⟩ [] fun _ => Except.ok 0).1).length
      = 1 ∧
    (Project.run ⟨"", [runnerStarA]⟩ [] fun _ => Except.ok 0).2 = true := by
  have h := run_invokes_empty_partitions "" [runnerStarA] []
    (fun _ => Except.ok 0)
  exact ⟨h.1, h.2.mpr (by decide)⟩

/--
C5: failure isolation and conjunction.  The list of performed invocations is
exactly one per partition, in order, and does not depend on the spawn
outcomes (no short-circuit), so in particular every runner with a non-empty
partition is dispatched whatever happened before it; the overall result is
true exactly when every dispatch succeeded, and it is vacuously true when
there are no runners.
-/
theorem run_failure_isolation (rootDir : String) (runners : List Runner)
    (files : List Candidate) (spawn : Command → Except String Int) :
    ((Project.run ⟨rootDir, runners⟩ files spawn).1 =
      ((match_runners runners files).1).map fun rf => (rf.1.name, rf.2)) ∧
    (∀ spawn2, (Project.run ⟨rootDir, runners⟩ files spawn).1 =
      (Project.run ⟨rootDir, runners⟩ files spawn2).1) ∧
    (∀ rf ∈ (match_runners runners files).1, rf.2 ≠ [] →
      (rf.1.name, rf.2) ∈ (Project.run ⟨rootDir, runners⟩ files spawn).1) ∧
    ((Project.run ⟨rootDir, runners⟩ files spawn).2 = true ↔
      ∀ rf ∈ (match_runners runners files).1,
        (Runner.run rf.1 rootDir rf.2 spawn).isOk = true) ∧
    (runners = [] →
      (Project.run ⟨rootDir, runners⟩ files spawn).2 = true) := by
  refine ⟨rfl, fun spawn2 => rfl, ?_, ?_, ?_⟩
  · intro rf hrf _
    exact List.mem_map_of_mem _ hrf
  · have e : (Project.run ⟨rootDir, runners⟩ files spawn).2 =
        ((match_runners runners files).1).all fun rf =>
          (Runner.run rf.1 rootDir rf.2 spawn).isOk := rfl
    rw [e, List.all_eq_true]
  · intro h
    subst h
    rfl

/--
Witness for C5: two star-pattern formatters and a spawn oracle that fails
every invocation; both formatters are still dispatched (the invocation list
names both) and the overall result is failure.
-/
theorem run_failure_isolation_witness :
    (Project.run ⟨"", [runnerStarA, runnerStarB]⟩ [cand1]
      fun _ => Except.error "boom").1 = [("a", ["/r/f"]), ("b", [])] ∧
    (Project.run ⟨"", [runnerStarA, runnerStarB]⟩ [cand1]
      fun _ => Except.error "boom").2 = false := by
  have h := run_failure_isolation "" [runnerStarA, runnerStarB] [cand1]
    (fun _ => Except.error "boom")
  exact ⟨h.1.trans (by decide), by decide⟩

/-- Computation rule of Runner.run. -/
theorem runner_run_eq (r : Runner) (workingDir : String)
    (paths : List String) (spawn : Command → Except String Int) :
    Runner.run r workingDir paths spawn =
      (match spawn (r.buildCommand workingDir paths) with
       | .error e => .error (.execFailed e)
       | .ok status =>
         if status = 0 then .ok () else .error .programFailed) := rfl

/--
C6: a dispatched invocation succeeds exactly when the child process exits
with status zero; a non-zero exit status yields the programFailed outcome,
and a failure to start the process yields the execFailed outcome carrying
the spawn error.
-/
theorem runner_outcome_iff_exit_zero (r : Runner) (workingDir : String)
    (paths : List String) (spawn : Command → Except String Int) :
    (Runner.run r workingDir paths spawn = .ok () ↔
      spawn (r.buildCommand workingDir paths) = .ok 0) ∧
    (∀ st : Int, spawn (r.buildCommand workingDir paths) = .ok st →
      st ≠ 0 → Runner.run r workingDir paths spawn =
        .error .programFailed) ∧
    (∀ e, spawn (r.buildCommand workingDir paths) = .error e →
      Runner.run r workingDir paths spawn = .error (.execFailed e)) := by
  refine ⟨⟨?_, ?_⟩, ?_, ?_⟩
  · intro hh
    rw [runner_run_eq] at hh
    rcases h : spawn (r.buildCommand workingDir paths) with e | st <;>
      rw [h] at hh
    · cases hh
    · by_cases hst : st = 0
      · rw [hst]
      · simp [hst] at hh
  · intro hh
    rw [runner_run_eq, hh]
    rfl
  · intro st hst hne
    rw [runner_run_eq, hst]
    simp [hne]
  · intro e he
    rw [runner_run_eq, he]

/--
Witness for C6: with a spawn oracle reporting exit status zero, the runner
outcome is success.
-/
theorem runner_outcome_iff_exit_zero_witness :
    Runner.run runnerStarA "" [] (fun _ => Except.ok 0) = .ok () :=
  (runner_outcome_iff_exit_zero runnerStarA "" []
    (fun _ => Except.ok 0)).1.mpr rfl

/--
C3 evidence: the Formatter schema of src/config.rs (deny_unknown_fields,
fields program, args, env, patterns) rejects a formatter table carrying a
shell key with an unknown-field error, while the same table without the key
decodes with args and env defaulting to empty.  runner.rs, by contrast,
consumes a FormatterConfig with a shell field (a type src/config.rs does not
define), so the snapshot contradicts itself and the spec sides with
runner.rs.
-/
theorem formatter_shell_key_rejected :
    decodeFormatterTable
        [("program", .vStr "true"), ("patterns", .vStrArr []),
         ("shell", .vBool true)] = .error (.unknownField "shell") ∧
    decodeFormatterTable
        [("program", .vStr "true"), ("patterns", .vStrArr [])] =
      .ok { program := "true", args := [], env := [], patterns := [] } := by
  constructor <;> rfl

/--
C8: if any formatter of the parsed configuration carries a syntactically
invalid glob pattern, Project loading fails with an invalidGlob error,
so the top-level run exits with code 1 having performed no process
invocation (and hence no classification of any file).
-/
theorem invalid_glob_aborts_run (rootDir : String)
    (cfg : List (String × FormatterConfig)) (files : List Candidate)
    (spawn : Command → Except String Int) (nm : String)
    (fc : FormatterConfig) (pat : String) (e : GlobError)
    (hmem : (nm, fc) ∈ cfg) (hpat : pat ∈ fc.patterns)
    (herr : Glob.new pat = .error e) :
    (∃ e2, Project.load rootDir cfg = .error (.invalidGlob e2)) ∧
    mainRun rootDir cfg files spawn = (1, []) := by
  have hmem2 : (nm, fc) ∈ sortByName cfg := mem_sortByName.mpr hmem
  have hfmt : ∃ e2, Runner.from_formatter nm fc = .error e2 := by
    obtain ⟨e2, h2⟩ := mapExcept_error_of_mem hpat herr
    refine ⟨e2, ?_⟩
    have h3 : Runner.build_glob_set fc.patterns = .error e2 := h2
    unfold Runner.from_formatter
    rw [h3]
  obtain ⟨e2, hf⟩ := hfmt
  obtain ⟨e3, h3⟩ := @mapExcept_error_of_mem (String × FormatterConfig)
    GlobError Runner (fun nf => Runner.from_formatter nf.1 nf.2)
    (sortByName cfg) (nm, fc) e2 hmem2 hf
  have hload : Project.load rootDir cfg = .error (.invalidGlob e3) := by
    unfold Project.load
    rw [h3]
  refine ⟨⟨e3, hload⟩, ?_⟩
  unfold mainRun
  rw [hload]

/-- A formatter whose single pattern is an unclosed character class. -/
def fmtBad : FormatterConfig :=
  { program := "p", shell := false, args := [], env := [], patterns := ["["] }

/-- A configuration containing the invalid-pattern formatter. -/
def cfgBad : List (String × FormatterConfig) := [("bad", fmtBad)]

/--
Witness for C8: the configuration with the unclosed-class pattern aborts the
run with exit code 1 and zero invocations.
-/
theorem invalid_glob_aborts_run_witness :
    mainRun "" cfgBad [] (fun _ => Except.ok 0) = (1, []) :=
  (invalid_glob_aborts_run "" cfgBad [] (fun _ => Except.ok 0) "bad" fmtBad
    "[" .unclosedClass (by decide) (by decide) (by decide)).2

/--
C9: a formatter with an empty patterns list compiles to the empty pattern
set, which matches no relative path.
-/
theorem empty_patterns_match_nothing (f : FormatterConfig)
    (hf : f.patterns = []) :
    ∃ gs, Runner.build_glob_set f.patterns = .ok gs ∧
      ∀ p, GlobSet.isMatch gs p = false := by
  refine ⟨[], ?_, ?_⟩
  · rw [hf]
    rfl
  · intro p
    rfl

/--
Witness for C9 at the concrete empty-patterns formatter configuration.
-/
theorem empty_patterns_match_nothing_witness :
    ∃ gs, Runner.build_glob_set cfgEmptyPat.patterns = .ok gs ∧
      ∀ p, GlobSet.isMatch gs p = false :=
  empty_patterns_match_nothing cfgEmptyPat rfl

theorem ancestors_nil : ancestors [] = [[]] := by
  rw [ancestors.eq_def]
  simp

theorem ancestors_cons (d : List String) (h : d ≠ []) :
    ancestors d = d :: ancestors d.dropLast := by
  rw [ancestors.eq_def]
  simp [h]

theorem find_of_check_some {fs : FileSys} {d : List String} {f : List String}
    (h : Config.check_dir fs d = some f) :
    Config.find fs d = some (d, f) := by
  rw [Config.find.eq_def, h]

theorem find_of_check_none {fs : FileSys} {d : List String}
    (hdn : d ≠ []) (h : Config.check_dir fs d = none) :
    Config.find fs d = Config.find fs d.dropLast := by
  rw [Config.find.eq_def, h]
  simp [hdn]

theorem find_nil_of_check_none {fs : FileSys}
    (h : Config.check_dir fs [] = none) :
    Config.find fs [] = none := by
  rw [Config.find.eq_def, h]
  simp

/-- The upward config search visits exactly the directory and its parent
chain, in order: Config.find equals a linear scan of the ancestors. -/
theorem find_eq_scan (fs : FileSys) : ∀ (n : Nat) (d : List String),
    d.length ≤ n →
    Config.find fs d = (ancestors d).findSome?
      (fun a => (Config.check_dir fs a).map fun f => (a, f))
  | 0, d, hd => by
    have hdn : d = [] := List.length_eq_zero.mp (Nat.le_zero.mp hd)
    subst hdn
    rw [ancestors_nil]
    rcases h : Config.check_dir fs [] with _ | f
    · rw [find_nil_of_check_none h]
      simp [List.findSome?_cons, h]
    · rw [find_of_check_some h]
      simp [List.findSome?_cons, h]
  | n + 1, d, hd => by
    by_cases hdn : d = []
    · subst hdn
      rw [ancestors_nil]
      rcases h : Config.check_dir fs [] with _ | f
      · rw [find_nil_of_check_none h]
        simp [List.findSome?_cons, h]
      · rw [find_of_check_some h]
        simp [List.findSome?_cons, h]
    · have hrec := find_eq_scan fs n d.dropLast (by
        rw [List.length_dropLast]
        omega)
      rw [ancestors_cons d hdn]
      rcases h : Config.check_dir fs d with _ | f
      · rw [find_of_check_none hdn h, List.findSome?_cons]
        simp only [h, Option.map_none]
        exact hrec
      · rw [find_of_check_some h, List.findSome?_cons]
        simp [h]

/--
C10: config-file discovery.  In any directory the name .forestry.toml takes
priority over forestry.toml; an explicitly given root directory is the only
directory checked (no config file there means the run fails with
noConfigFile whatever the parents contain); and without an explicit root
the search scans the current working directory and then each parent in
order, returning the first directory containing a config file.
-/
theorem config_discovery_behavior (fs : FileSys) (cwd rd : List String) :
    ((rd ++ [".forestry.toml"]) ∈ fs →
      Config.check_dir fs rd = some (rd ++ [".forestry.toml"])) ∧
    (Config.check_dir fs rd = none →
      Project.find_config fs (some rd) cwd = .error .noConfigFile) ∧
    (∀ f, Config.check_dir fs rd = some f →
      Project.find_config fs (some rd) cwd = .ok (rd, f)) ∧
    (Project.find_config fs none cwd =
      match (ancestors cwd).findSome?
          (fun a => (Config.check_dir fs a).map fun f => (a, f)) with
      | some x => .ok x
      | none => .error .noConfigFile) := by
  refine ⟨?_, ?_, ?_, ?_⟩
  · intro h
    simp [Config.check_dir, Config.FILE_NAMES, h]
  · intro h
    simp [Project.find_config, h]
  · intro f hf
    simp [Project.find_config, hf]
  · unfold Project.find_config
    rw [find_eq_scan fs cwd.length cwd (le_refl _)]

/-- A file system holding both config file names in the directory home. -/
def fsHome : FileSys :=
  [["home", ".forestry.toml"], ["home", "forestry.toml"]]

/--
Witness for C10: searching upwards from home/proj finds the config in home
and picks .forestry.toml over forestry.toml, while the same directory given
explicitly as the root is not subject to the parent search and fails.
-/
theorem config_discovery_behavior_witness :
    Project.find_config fsHome none ["home", "proj"] =
      .ok (["home"], ["home", ".forestry.toml"]) ∧
    Project.find_config fsHome (some ["home", "proj"]) ["home", "proj"] =
      .error .noConfigFile := by
  have h := config_discovery_behavior fsHome ["home", "proj"]
    ["home", "proj"]
  constructor
  · rw [h.2.2.2]
    have e1 : ancestors ["home", "proj"] =
        [["home", "proj"], ["home"], []] := by
      rw [ancestors_cons _ (by simp)]
      simp only [List.dropLast]
      rw [ancestors_cons _ (by simp)]
      simp only [List.dropLast]
      rw [ancestors_nil]
    rw [e1]
    simp [List.findSome?_cons, Config.check_dir, Config.FILE_NAMES, fsHome]
  · exact h.2.1 (by simp [Config.check_dir, Config.FILE_NAMES, fsHome])

end Forestry
